import Mathlib

/-!
Shallow embedding of the frame-orchestration core of the VulkanSceneGraph viewer:
DeleteQueue (include/vsg/threading/DeleteQueue.h), CopyAndReleaseBuffer
(include/vsg/commands/CopyAndReleaseBuffer.h) and Viewer (include/vsg/app/Viewer.h).
Objects, buffers, events and handlers are modelled by natural-number identifiers.
The repository ships only the three headers; member functions whose bodies live in
the corresponding .cpp files are modelled from the specification, each such
definition saying so in its doc comment.
-/

set_option autoImplicit false

namespace VSG

/-- Entry of the DeleteQueue pending list, from DeleteQueue.h (the source spells the
struct name ObectToDelete); frameCount here is the release deadline recorded at add
time, object the surrendered ref_ptr, modelled by an identifier. -/
structure ObectToDelete where
  frameCount : Nat
  object : Nat
deriving DecidableEq

/-- State of vsg::DeleteQueue: the atomic frameCount, retainForFrameCount and the
mutex-protected list _objectsToDelete. -/
structure DeleteQueue where
  frameCount : Nat
  retainForFrameCount : Nat
  objectsToDelete : List ObectToDelete
deriving DecidableEq

/-- A freshly constructed DeleteQueue: frameCount 0 (member initialiser), the
retainForFrameCount member default 3, and an empty list. -/
def DeleteQueue.create : DeleteQueue := ⟨0, 3, []⟩

/-- DeleteQueue::add, inline in DeleteQueue.h: under the mutex, push_back an entry
whose recorded frameCount is the current frameCount + retainForFrameCount. -/
def DeleteQueue.add (q : DeleteQueue) (object : Nat) : DeleteQueue :=
  { q with objectsToDelete :=
      q.objectsToDelete ++ [⟨q.frameCount + q.retainForFrameCount, object⟩] }

/-- DeleteQueue::add template overload, inline in DeleteQueue.h: emplace_back one
entry per object of the collection, each with deadline frameCount +
retainForFrameCount. -/
def DeleteQueue.addCollection (q : DeleteQueue) (objects : List Nat) : DeleteQueue :=
  { q with objectsToDelete :=
      q.objectsToDelete ++
        objects.map fun o => ⟨q.frameCount + q.retainForFrameCount, o⟩ }

/-- Modelled from the spec: DeleteQueue::advance is declared in DeleteQueue.h but its
body lives in DeleteQueue.cpp, which is not in src/; the spec says advance updates
the atomic frameCount to the new frame index taken from the FrameStamp. -/
def DeleteQueue.advance (q : DeleteQueue) (frameStampFrameCount : Nat) : DeleteQueue :=
  { q with frameCount := frameStampFrameCount }

/-- An entry is ready for release when its recorded deadline has passed, that is when
the queue frameCount has reached it. -/
def ObectToDelete.ready (e : ObectToDelete) (currentFrameCount : Nat) : Bool :=
  decide (e.frameCount ≤ currentFrameCount)

/-- Modelled from the spec: DeleteQueue::wait_then_clear is declared in DeleteQueue.h
but its body lives in DeleteQueue.cpp, which is not in src/; the spec says it releases
every entry whose deadline has passed given the current frameCount and compacts the
remaining list. First component: the entries released by this call, in insertion
order; second component: the queue after the call. -/
def DeleteQueue.wait_then_clear (q : DeleteQueue) : List ObectToDelete × DeleteQueue :=
  (q.objectsToDelete.filter fun e => e.ready q.frameCount,
   { q with objectsToDelete := q.objectsToDelete.filter fun e => !(e.ready q.frameCount) })

/-- Modelled from the spec: DeleteQueue::clear is declared in DeleteQueue.h but its
body lives in DeleteQueue.cpp, which is not in src/; the spec says it unconditionally
releases every pending entry regardless of deadline. -/
def DeleteQueue.clear (q : DeleteQueue) : List ObectToDelete × DeleteQueue :=
  (q.objectsToDelete, { q with objectsToDelete := [] })

/-- C1: an object surrendered via add while the queue frameCount equals F is recorded
with deadline F + retainForFrameCount; in any queue state still holding that entry, a
wait_then_clear call made while frameCount is below the deadline does not release the
entry and keeps it queued, while once frameCount has reached the deadline a single
wait_then_clear call releases it and removes it from the queue; clear releases it
unconditionally. -/
theorem DeleteQueue_add_frame_gated_release (q q2 : DeleteQueue) (obj : Nat)
    (e : ObectToDelete) (he : e ∈ q2.objectsToDelete) :
    (q.add obj).objectsToDelete =
      q.objectsToDelete ++ [⟨q.frameCount + q.retainForFrameCount, obj⟩] ∧
    (q2.frameCount < e.frameCount →
      e ∉ q2.wait_then_clear.1 ∧ e ∈ q2.wait_then_clear.2.objectsToDelete) ∧
    (e.frameCount ≤ q2.frameCount →
      e ∈ q2.wait_then_clear.1 ∧ e ∉ q2.wait_then_clear.2.objectsToDelete) ∧
    e ∈ q2.clear.1 := by
  refine ⟨rfl, ?_, ?_, he⟩
  · intro hlt
    constructor
    · intro hmem
      have := (List.mem_filter.mp hmem).2
      simp [ObectToDelete.ready] at this
      omega
    · refine List.mem_filter.mpr ⟨he, ?_⟩
      simp [ObectToDelete.ready]
      omega
  · intro hle
    constructor
    · refine List.mem_filter.mpr ⟨he, ?_⟩
      simp [ObectToDelete.ready]
      omega
    · intro hmem
      have := (List.mem_filter.mp hmem).2
      simp [ObectToDelete.ready] at this
      omega

/-- Concrete run of C1: the object added at frame 0 with the default retention of 3
frames, after advance to frame 3, is released by a single wait_then_clear call. -/
theorem DeleteQueue_add_frame_gated_release_witness :
    (⟨3, 7⟩ : ObectToDelete) ∈ ((DeleteQueue.create.add 7).advance 3).wait_then_clear.1 :=
  ((DeleteQueue_add_frame_gated_release DeleteQueue.create
      ((DeleteQueue.create.add 7).advance 3) 7 ⟨3, 7⟩ (by decide)).2.2.1 (by decide)).1

/-- The operations of the DeleteQueue interface, for stating trace invariants. None
of them writes retainForFrameCount, matching the interface, which exposes no setter
used during operation. -/
inductive DQOp where
  | add (object : Nat)
  | addCollection (objects : List Nat)
  | advance (frameStampFrameCount : Nat)
  | waitThenClear
  | clearAll
deriving DecidableEq

/-- Effect of one DeleteQueue operation on the queue state. -/
def DQOp.apply : DQOp → DeleteQueue → DeleteQueue
  | .add o, q => q.add o
  | .addCollection os, q => q.addCollection os
  | .advance fc, q => q.advance fc
  | .waitThenClear, q => q.wait_then_clear.2
  | .clearAll, q => q.clear.2

/-- The side condition of C9: advance is applied with nondecreasing frame indices;
every other operation is unconstrained. -/
def DQOp.nondecreasing : DQOp → DeleteQueue → Prop
  | .advance fc, q => q.frameCount ≤ fc
  | _, _ => True

/-- Queue states reachable from an empty queue, with any start frame and retention,
by interleavings of add, addCollection, nondecreasing advance, wait_then_clear and
clear calls. -/
inductive DQReachable : DeleteQueue → Prop
  | init (f r : Nat) : DQReachable ⟨f, r, []⟩
  | step (q : DeleteQueue) (op : DQOp) : DQReachable q → op.nondecreasing q →
      DQReachable (op.apply q)

/-- Deadline invariant of the queue: the recorded deadlines are nondecreasing along
the list, and none exceeds the current frameCount + retainForFrameCount. -/
def DeleteQueue.deadlineInv (q : DeleteQueue) : Prop :=
  q.objectsToDelete.Pairwise (fun a b => a.frameCount ≤ b.frameCount) ∧
  ∀ e ∈ q.objectsToDelete, e.frameCount ≤ q.frameCount + q.retainForFrameCount

theorem deadlineInv_step (q : DeleteQueue) (op : DQOp) (hq : q.deadlineInv)
    (hnd : op.nondecreasing q) : (op.apply q).deadlineInv := by
  obtain ⟨hsorted, hbound⟩ := hq
  cases op with
  | add o =>
      refine ⟨?_, ?_⟩
      · simp only [DQOp.apply, DeleteQueue.add, List.pairwise_append]
        exact ⟨hsorted, List.pairwise_singleton _ _,
          fun a ha b hb => by
            simp only [List.mem_singleton] at hb
            subst hb
            exact hbound a ha⟩
      · intro e he
        simp only [DQOp.apply, DeleteQueue.add, List.mem_append,
          List.mem_singleton] at he
        rcases he with he | he
        · exact hbound e he
        · subst he; exact le_refl _
  | addCollection os =>
      refine ⟨?_, ?_⟩
      · simp only [DQOp.apply, DeleteQueue.addCollection, List.pairwise_append]
        refine ⟨hsorted, ?_, ?_⟩
        · rw [List.pairwise_map]
          exact List.pairwise_of_forall_mem_list fun a _ b _ => le_refl _
        · intro a ha b hb
          simp only [List.mem_map] at hb
          obtain ⟨o, _, rfl⟩ := hb
          exact hbound a ha
      · intro e he
        simp only [DQOp.apply, DeleteQueue.addCollection, List.mem_append,
          List.mem_map] at he
        rcases he with he | ⟨o, _, rfl⟩
        · exact hbound e he
        · exact le_refl _
  | advance fc =>
      refine ⟨hsorted, ?_⟩
      intro e he
      have := hbound e he
      simp only [DQOp.nondecreasing] at hnd
      simp only [DQOp.apply, DeleteQueue.advance]
      omega
  | waitThenClear =>
      refine ⟨?_, ?_⟩
      · exact hsorted.filter _
      · intro e he
        exact hbound e (List.mem_of_mem_filter he)
  | clearAll =>
      exact ⟨List.Pairwise.nil, by intro e he; simp [DQOp.apply, DeleteQueue.clear] at he⟩

theorem deadlineInv_reachable (q : DeleteQueue) (h : DQReachable q) : q.deadlineInv := by
  induction h with
  | init f r => exact ⟨List.Pairwise.nil, by intro e he; simp at he⟩
  | step q op hq hnd ih => exact deadlineInv_step q op ih hnd

/-- On a list with nondecreasing deadlines, the ready entries are exactly the leading
run of ready entries: filtering by readiness agrees with takeWhile. -/
theorem filter_ready_eq_takeWhile (c : Nat) (l : List ObectToDelete)
    (hs : l.Pairwise fun a b => a.frameCount ≤ b.frameCount) :
    l.filter (fun e => e.ready c) = l.takeWhile (fun e => e.ready c) := by
  induction l with
  | nil => rfl
  | cons x xs ih =>
      rcases List.pairwise_cons.mp hs with ⟨hx, hxs⟩
      by_cases hr : x.ready c = true
      · simp [List.filter_cons, List.takeWhile_cons, hr, ih hxs]
      · have hall : ∀ e ∈ xs, ¬(e.ready c = true) := by
          intro e he hec
          simp only [ObectToDelete.ready, decide_eq_true_eq] at hr hec
          exact hr (le_trans (hx e he) hec)
        have hrf : x.ready c = false := by
          exact Bool.not_eq_true _ ▸ eq_false_of_ne_true hr
        simp only [List.filter_cons, List.takeWhile_cons, hrf, Bool.false_eq_true,
          if_false]
        exact List.filter_eq_nil_iff.mpr hall

/-- C9: in every DeleteQueue state reachable by interleavings of add, addCollection
and nondecreasing advance calls, with retainForFrameCount never modified, each add
appends at the tail with deadline frameCount + retainForFrameCount, the pending list
is sorted by nondecreasing deadline, and the ready-to-release entries form the leading
run of the list (filtering by readiness agrees with takeWhile). -/
theorem DeleteQueue_ready_entries_lead (q : DeleteQueue) (h : DQReachable q) :
    (∀ obj : Nat, (q.add obj).objectsToDelete =
      q.objectsToDelete ++ [⟨q.frameCount + q.retainForFrameCount, obj⟩]) ∧
    q.objectsToDelete.Pairwise (fun a b => a.frameCount ≤ b.frameCount) ∧
    q.objectsToDelete.filter (fun e => e.ready q.frameCount) =
      q.objectsToDelete.takeWhile (fun e => e.ready q.frameCount) := by
  have hinv := deadlineInv_reachable q h
  exact ⟨fun obj => rfl, hinv.1, filter_ready_eq_takeWhile q.frameCount _ hinv.1⟩

/-- Concrete run of C9: after two adds and an advance the ready entries of the queue
are its leading run. -/
theorem DeleteQueue_ready_entries_lead_witness :
    (((DeleteQueue.create.add 1).add 2).advance 4).objectsToDelete.filter
        (fun e => e.ready ((((DeleteQueue.create.add 1).add 2).advance 4)).frameCount) =
      (((DeleteQueue.create.add 1).add 2).advance 4).objectsToDelete.takeWhile
        (fun e => e.ready ((((DeleteQueue.create.add 1).add 2).advance 4)).frameCount) :=
  (DeleteQueue_ready_entries_lead (((DeleteQueue.create.add 1).add 2).advance 4)
      (DQReachable.step _ (DQOp.advance 4)
        (DQReachable.step _ (DQOp.add 2)
          (DQReachable.step _ (DQOp.add 1) (DQReachable.init 0 3) True.intro)
          True.intro)
        (Nat.zero_le 4))).2.2

/-- CopyAndReleaseBuffer::CopyData from CopyAndReleaseBuffer.h: source and
destination BufferInfo references, modelled by identifiers. The tag field is a ghost
identity added by the embedding to follow one entry across the three lists; it is not
a field of the source struct and no operation reads it. -/
structure CopyData where
  tag : Nat
  source : Nat
  destination : Nat
deriving DecidableEq

/-- CopyAndReleaseBuffer state: the optional stagingMemoryBufferPools member and the
three mutex-protected lists, which the source names with a leading underscore, plus
the ghost counter supplying fresh tags. -/
structure CopyAndReleaseBuffer where
  stagingMemoryBufferPools : Option Nat
  pending : List CopyData
  completed : List CopyData
  readyToClear : List CopyData
  nextTag : Nat
deriving DecidableEq

/-- The constructor, explicit CopyAndReleaseBuffer(ref_ptr<MemoryBufferPools>
optional_stagingMemoryBufferPools = \x7b\x7d): the argument is stored in the member;
all three lists start empty. -/
def CopyAndReleaseBuffer.create (pools : Option Nat) : CopyAndReleaseBuffer :=
  ⟨pools, [], [], [], 0⟩

/-- Default construction: the optional pools argument defaults to null, modelled by
none, so the member starts unassigned. -/
def CopyAndReleaseBuffer.createDefault : CopyAndReleaseBuffer :=
  CopyAndReleaseBuffer.create none

/-- Modelled from the spec: CopyAndReleaseBuffer::add is declared in
CopyAndReleaseBuffer.h but its body lives in CopyAndReleaseBuffer.cpp, which is not in
src/; the caller supplies an already populated source BufferInfo and the entry is
enqueued directly into pending; stagingMemoryBufferPools is not consulted. -/
def CopyAndReleaseBuffer.add (s : CopyAndReleaseBuffer) (src dest : Nat) :
    CopyAndReleaseBuffer :=
  { s with pending := s.pending ++ [⟨s.nextTag, src, dest⟩],
           nextTag := s.nextTag + 1 }

/-- Modelled from the spec: CopyAndReleaseBuffer::copy is declared in
CopyAndReleaseBuffer.h but its body lives in CopyAndReleaseBuffer.cpp, which is not in
src/; it allocates a staging buffer region from stagingMemoryBufferPools, the only
source of staging allocations, writes the data into it and enqueues a CopyData in
pending; with no pools assigned there is no allocation path, modelled as failure. -/
def CopyAndReleaseBuffer.copy (s : CopyAndReleaseBuffer) (data dest : Nat) :
    Option CopyAndReleaseBuffer :=
  match s.stagingMemoryBufferPools with
  | none => none
  | some _ =>
      some { s with pending := s.pending ++ [⟨s.nextTag, data, dest⟩],
                    nextTag := s.nextTag + 1 }

/-- CopyData::record: emits one device copy command for this entry, modelled by the
source and destination pair. -/
def CopyData.record (c : CopyData) : Nat × Nat := (c.source, c.destination)

/-- Loop body of CopyAndReleaseBuffer::record over the pending list: one emitted
command per entry, in list order. -/
def recordLoop : List CopyData → List (Nat × Nat)
  | [] => []
  | c :: cs => c.record :: recordLoop cs

/-- Modelled from the spec: CopyAndReleaseBuffer::record is declared in
CopyAndReleaseBuffer.h but its body lives in CopyAndReleaseBuffer.cpp, which is not in
src/; every pending entry emits a device copy command into the command buffer and
moves to completed, and pending is the only state consumed here. First component: the
commands emitted, in order; second component: the state after the call. -/
def CopyAndReleaseBuffer.record (s : CopyAndReleaseBuffer) :
    List (Nat × Nat) × CopyAndReleaseBuffer :=
  (recordLoop s.pending,
   { s with pending := [], completed := s.completed ++ s.pending })

/-- Modelled from the spec: once the fence of the submission in which record ran is
observed signaled by the external synchronization step, completed entries move to
readyToClear. -/
def CopyAndReleaseBuffer.fenceSignaled (s : CopyAndReleaseBuffer) :
    CopyAndReleaseBuffer :=
  { s with completed := [], readyToClear := s.readyToClear ++ s.completed }

/-- Modelled from the spec: a subsequent pass releases the staging regions of the
readyToClear entries back to the pool and drops the entries. First component: the
released entries; second component: the state after the pass. -/
def CopyAndReleaseBuffer.clearReady (s : CopyAndReleaseBuffer) :
    List CopyData × CopyAndReleaseBuffer :=
  (s.readyToClear, { s with readyToClear := [] })

/-- The operations of the CopyAndReleaseBuffer lifecycle, for stating trace
invariants. -/
inductive CRBOp where
  | add (src dest : Nat)
  | copy (data dest : Nat)
  | record
  | fenceSignaled
  | clearReady
deriving DecidableEq

/-- Effect of one operation on the state; a copy call that fails for want of staging
pools leaves the state unchanged. -/
def CRBOp.apply : CRBOp → CopyAndReleaseBuffer → CopyAndReleaseBuffer
  | .add src dest, s => s.add src dest
  | .copy data dest, s =>
      match s.copy data dest with
      | none => s
      | some s2 => s2
  | .record, s => s.record.2
  | .fenceSignaled, s => s.fenceSignaled
  | .clearReady, s => s.clearReady.2

/-- States reachable from a freshly constructed CopyAndReleaseBuffer by any sequence
of add, copy, record, fence observation and clear passes. -/
inductive CRBReachable : CopyAndReleaseBuffer → Prop
  | init (pools : Option Nat) : CRBReachable (CopyAndReleaseBuffer.create pools)
  | step (s : CopyAndReleaseBuffer) (op : CRBOp) : CRBReachable s →
      CRBReachable (op.apply s)

/-- The stages of the CopyData lifecycle, in their forward order. -/
inductive CopyStage where
  | pending
  | completed
  | readyToClear
  | removed
deriving DecidableEq

/-- Position of a stage along the forward order of the lifecycle. -/
def CopyStage.rank : CopyStage → Nat
  | .pending => 0
  | .completed => 1
  | .readyToClear => 2
  | .removed => 3

/-- Ghost tags of the entries of one list. -/
def tagsOf (l : List CopyData) : List Nat := l.map CopyData.tag

/-- Stage of the entry with ghost tag t in state s: the list holding it, or removed
when no list does. -/
def CopyAndReleaseBuffer.stageOf (s : CopyAndReleaseBuffer) (t : Nat) : CopyStage :=
  if t ∈ tagsOf s.pending then .pending
  else if t ∈ tagsOf s.completed then .completed
  else if t ∈ tagsOf s.readyToClear then .readyToClear
  else .removed

/-- All ghost tags present in the three lists of a state. -/
def CopyAndReleaseBuffer.allTags (s : CopyAndReleaseBuffer) : List Nat :=
  tagsOf s.pending ++ tagsOf s.completed ++ tagsOf s.readyToClear

/-- Tag invariant: every tag in the lists is below the ghost counter, each list holds
no tag twice, and no tag occurs in two different lists. -/
def CopyAndReleaseBuffer.tagInv (s : CopyAndReleaseBuffer) : Prop :=
  (∀ t ∈ s.allTags, t < s.nextTag) ∧
  (tagsOf s.pending).Nodup ∧ (tagsOf s.completed).Nodup ∧
  (tagsOf s.readyToClear).Nodup ∧
  (∀ t ∈ tagsOf s.pending, t ∉ tagsOf s.completed) ∧
  (∀ t ∈ tagsOf s.pending, t ∉ tagsOf s.readyToClear) ∧
  (∀ t ∈ tagsOf s.completed, t ∉ tagsOf s.readyToClear)

theorem tagsOf_append (l1 l2 : List CopyData) :
    tagsOf (l1 ++ l2) = tagsOf l1 ++ tagsOf l2 := by
  simp [tagsOf]

/-- Appending one entry with a fresh tag preserves the tag invariant; shared by the
add and copy cases. -/
theorem tagInv_push (s : CopyAndReleaseBuffer) (src dest : Nat) (h : s.tagInv) :
    CopyAndReleaseBuffer.tagInv
      { s with pending := s.pending ++ [⟨s.nextTag, src, dest⟩],
               nextTag := s.nextTag + 1 } := by
  obtain ⟨hlt, hP, hC, hR, hPC, hPR, hCR⟩ := h
  have hltP : ∀ t ∈ tagsOf s.pending, t < s.nextTag := fun t ht =>
    hlt t (by simp [CopyAndReleaseBuffer.allTags, ht])
  have hltC : ∀ t ∈ tagsOf s.completed, t < s.nextTag := fun t ht =>
    hlt t (by simp [CopyAndReleaseBuffer.allTags, ht])
  have hltR : ∀ t ∈ tagsOf s.readyToClear, t < s.nextTag := fun t ht =>
    hlt t (by simp [CopyAndReleaseBuffer.allTags, ht])
  refine ⟨?_, ?_, hC, hR, ?_, ?_, hCR⟩
  · intro t ht
    show t < s.nextTag + 1
    simp only [CopyAndReleaseBuffer.allTags, tagsOf_append, tagsOf, List.map_append, List.map_cons,
      List.map_nil, List.mem_append, List.mem_cons, List.not_mem_nil, or_false] at ht
    rcases ht with ((ht | ht) | ht) | ht
    · have := hltP t ht; omega
    · omega
    · have := hltC t ht; omega
    · have := hltR t ht; omega
  · simp only [tagsOf_append, tagsOf, List.map_append, List.map_cons, List.map_nil]
    rw [List.nodup_append]
    refine ⟨hP, List.nodup_singleton _, ?_⟩
    intro a ha hb
    simp only [List.mem_singleton] at hb
    subst hb
    have := hltP _ ha
    omega
  · intro t ht
    simp only [tagsOf_append, tagsOf, List.map_append, List.map_cons, List.map_nil,
      List.mem_append, List.mem_singleton] at ht
    rcases ht with ht | ht
    · exact hPC t ht
    · subst ht
      intro hc
      have := hltC _ hc
      omega
  · intro t ht
    simp only [tagsOf_append, tagsOf, List.map_append, List.map_cons, List.map_nil,
      List.mem_append, List.mem_singleton] at ht
    rcases ht with ht | ht
    · exact hPR t ht
    · subst ht
      intro hc
      have := hltR _ hc
      omega

theorem tagInv_step (s : CopyAndReleaseBuffer) (op : CRBOp) (h : s.tagInv) :
    (op.apply s).tagInv := by
  obtain ⟨hlt, hP, hC, hR, hPC, hPR, hCR⟩ := h
  cases op with
  | add src dest =>
      exact tagInv_push s src dest ⟨hlt, hP, hC, hR, hPC, hPR, hCR⟩
  | copy data dest =>
      cases hp : s.stagingMemoryBufferPools with
      | none =>
          simpa [CRBOp.apply, CopyAndReleaseBuffer.copy, hp] using
            (⟨hlt, hP, hC, hR, hPC, hPR, hCR⟩ : s.tagInv)
      | some pools =>
          have := tagInv_push s data dest ⟨hlt, hP, hC, hR, hPC, hPR, hCR⟩
          simpa [CRBOp.apply, CopyAndReleaseBuffer.copy,
            CopyAndReleaseBuffer.add, hp] using this
  | record =>
      refine ⟨?_, ?_, ?_, hR, ?_, ?_, ?_⟩
      · intro t ht
        apply hlt
        simp only [CRBOp.apply, CopyAndReleaseBuffer.record,
          CopyAndReleaseBuffer.allTags, tagsOf_append, tagsOf, List.map_append, List.map_nil,
          List.nil_append, List.mem_append] at ht ⊢
        tauto
      · simp [CRBOp.apply, CopyAndReleaseBuffer.record, tagsOf]
      · simp only [CRBOp.apply, CopyAndReleaseBuffer.record, tagsOf_append]
        rw [List.nodup_append]
        exact ⟨hC, hP, fun a ha hb => hPC a hb ha⟩
      · intro t ht
        simp [CRBOp.apply, CopyAndReleaseBuffer.record, tagsOf] at ht
      · intro t ht
        simp [CRBOp.apply, CopyAndReleaseBuffer.record, tagsOf] at ht
      · intro t ht
        simp only [CRBOp.apply, CopyAndReleaseBuffer.record, tagsOf_append,
          List.mem_append] at ht ⊢
        rcases ht with ht | ht
        · exact hCR t ht
        · exact hPR t ht
  | fenceSignaled =>
      refine ⟨?_, hP, ?_, ?_, ?_, ?_, ?_⟩
      · intro t ht
        apply hlt
        simp only [CRBOp.apply, CopyAndReleaseBuffer.fenceSignaled,
          CopyAndReleaseBuffer.allTags, tagsOf_append, tagsOf, List.map_append, List.map_nil,
          List.append_nil, List.mem_append] at ht ⊢
        tauto
      · simp [CRBOp.apply, CopyAndReleaseBuffer.fenceSignaled, tagsOf]
      · simp only [CRBOp.apply, CopyAndReleaseBuffer.fenceSignaled, tagsOf_append]
        rw [List.nodup_append]
        exact ⟨hR, hC, fun a ha hb => hCR a hb ha⟩
      · intro t ht
        simp [CRBOp.apply, CopyAndReleaseBuffer.fenceSignaled, tagsOf] at ht ⊢
      · intro t ht
        simp only [CRBOp.apply, CopyAndReleaseBuffer.fenceSignaled, tagsOf_append,
          List.mem_append] at ht ⊢
        push_neg
        exact ⟨fun hc => hPR t ht hc, fun hc => hPC t ht hc⟩
      · intro t ht
        simp [CRBOp.apply, CopyAndReleaseBuffer.fenceSignaled, tagsOf] at ht
  | clearReady =>
      refine ⟨?_, hP, hC, ?_, hPC, ?_, ?_⟩
      · intro t ht
        apply hlt
        simp only [CRBOp.apply, CopyAndReleaseBuffer.clearReady,
          CopyAndReleaseBuffer.allTags, tagsOf_append, tagsOf, List.map_append, List.map_nil,
          List.append_nil, List.mem_append] at ht ⊢
        tauto
      · simp [CRBOp.apply, CopyAndReleaseBuffer.clearReady, tagsOf]
      · intro t ht
        simp [CRBOp.apply, CopyAndReleaseBuffer.clearReady, tagsOf]
      · intro t ht
        simp [CRBOp.apply, CopyAndReleaseBuffer.clearReady, tagsOf]

theorem tagInv_reachable (s : CopyAndReleaseBuffer) (h : CRBReachable s) : s.tagInv := by
  induction h with
  | init pools =>
      exact ⟨by intro t ht; simp [CopyAndReleaseBuffer.create,
        CopyAndReleaseBuffer.allTags, tagsOf] at ht, by
        simp [CopyAndReleaseBuffer.create, CopyAndReleaseBuffer.allTags, tagsOf]⟩
  | step s op hs ih => exact tagInv_step s op ih

theorem stageOf_eq_pending (s : CopyAndReleaseBuffer) (t : Nat)
    (hp : t ∈ tagsOf s.pending) : s.stageOf t = CopyStage.pending := by
  simp [CopyAndReleaseBuffer.stageOf, hp]

theorem stageOf_eq_completed (s : CopyAndReleaseBuffer) (t : Nat)
    (hp : t ∉ tagsOf s.pending) (hc : t ∈ tagsOf s.completed) :
    s.stageOf t = CopyStage.completed := by
  simp [CopyAndReleaseBuffer.stageOf, hp, hc]

theorem stageOf_eq_readyToClear (s : CopyAndReleaseBuffer) (t : Nat)
    (hp : t ∉ tagsOf s.pending) (hc : t ∉ tagsOf s.completed)
    (hr : t ∈ tagsOf s.readyToClear) : s.stageOf t = CopyStage.readyToClear := by
  simp [CopyAndReleaseBuffer.stageOf, hp, hc, hr]

theorem stageOf_eq_removed (s : CopyAndReleaseBuffer) (t : Nat)
    (hp : t ∉ tagsOf s.pending) (hc : t ∉ tagsOf s.completed)
    (hr : t ∉ tagsOf s.readyToClear) : s.stageOf t = CopyStage.removed := by
  simp [CopyAndReleaseBuffer.stageOf, hp, hc, hr]

/-- Enqueueing one entry with a fresh tag leaves the stage of every existing entry
unchanged; shared by the add and copy cases. -/
theorem stageOf_push (s : CopyAndReleaseBuffer) (src dest t : Nat) (ht : t < s.nextTag) :
    CopyAndReleaseBuffer.stageOf
      { s with pending := s.pending ++ [⟨s.nextTag, src, dest⟩],
               nextTag := s.nextTag + 1 } t = s.stageOf t := by
  have hpend : t ∈ tagsOf (s.pending ++ [⟨s.nextTag, src, dest⟩]) ↔
      t ∈ tagsOf s.pending := by
    simp only [tagsOf, List.map_append, List.map_cons, List.map_nil, List.mem_append,
      List.mem_singleton]
    constructor
    · rintro (h | h)
      · exact h
      · omega
    · exact Or.inl
  by_cases hp : t ∈ tagsOf s.pending
  · rw [stageOf_eq_pending _ _ hp]
    exact stageOf_eq_pending _ _ (hpend.mpr hp)
  · by_cases hc : t ∈ tagsOf s.completed
    · rw [stageOf_eq_completed _ _ hp hc]
      exact stageOf_eq_completed _ _ (fun hx => hp (hpend.mp hx)) hc
    · by_cases hr : t ∈ tagsOf s.readyToClear
      · rw [stageOf_eq_readyToClear _ _ hp hc hr]
        exact stageOf_eq_readyToClear _ _ (fun hx => hp (hpend.mp hx)) hc hr
      · rw [stageOf_eq_removed _ _ hp hc hr]
        exact stageOf_eq_removed _ _ (fun hx => hp (hpend.mp hx)) hc hr

theorem tagsOf_nil_not_mem (t : Nat) : t ∉ tagsOf [] := by
  simp [tagsOf]

/-- Across any single lifecycle operation, the stage of an existing entry never moves
backward: its rank along pending, completed, readyToClear, removed is nondecreasing. -/
theorem stageOf_rank_mono (s : CopyAndReleaseBuffer) (op : CRBOp) (t : Nat)
    (ht : t < s.nextTag) :
    (s.stageOf t).rank ≤ ((op.apply s).stageOf t).rank := by
  cases op with
  | add src dest =>
      show (s.stageOf t).rank ≤ ((s.add src dest).stageOf t).rank
      rw [show (s.add src dest).stageOf t = s.stageOf t from stageOf_push s src dest t ht]
  | copy data dest =>
      cases hpool : s.stagingMemoryBufferPools with
      | none =>
          have happ : (CRBOp.copy data dest).apply s = s := by
            simp [CRBOp.apply, CopyAndReleaseBuffer.copy, hpool]
          rw [happ]
      | some pools =>
          have happ : (CRBOp.copy data dest).apply s =
              { s with pending := s.pending ++ [⟨s.nextTag, data, dest⟩],
                       nextTag := s.nextTag + 1 } := by
            simp [CRBOp.apply, CopyAndReleaseBuffer.copy, hpool]
          rw [happ, stageOf_push s data dest t ht]
  | record =>
      show (s.stageOf t).rank ≤ (s.record.2.stageOf t).rank
      by_cases hp : t ∈ tagsOf s.pending
      · rw [stageOf_eq_pending s t hp]
        exact Nat.zero_le _
      · have hp2 : t ∉ tagsOf s.record.2.pending := tagsOf_nil_not_mem t
        have hmem : t ∈ tagsOf s.completed ∨ t ∈ tagsOf s.pending →
            t ∈ tagsOf s.record.2.completed := by
          intro hx
          show t ∈ tagsOf (s.completed ++ s.pending)
          rw [tagsOf_append]
          exact List.mem_append.mpr hx
        have hnmem : t ∉ tagsOf s.completed → t ∉ tagsOf s.record.2.completed := by
          intro hc hx
          have : t ∈ tagsOf (s.completed ++ s.pending) := hx
          rw [tagsOf_append] at this
          rcases List.mem_append.mp this with hx2 | hx2
          · exact hc hx2
          · exact hp hx2
        by_cases hc : t ∈ tagsOf s.completed
        · rw [stageOf_eq_completed s t hp hc,
            stageOf_eq_completed s.record.2 t hp2 (hmem (Or.inl hc))]
        · by_cases hr : t ∈ tagsOf s.readyToClear
          · rw [stageOf_eq_readyToClear s t hp hc hr,
              stageOf_eq_readyToClear s.record.2 t hp2 (hnmem hc) hr]
          · rw [stageOf_eq_removed s t hp hc hr,
              stageOf_eq_removed s.record.2 t hp2 (hnmem hc) hr]
  | fenceSignaled =>
      show (s.stageOf t).rank ≤ (s.fenceSignaled.stageOf t).rank
      by_cases hp : t ∈ tagsOf s.pending
      · rw [stageOf_eq_pending s t hp]
        exact Nat.zero_le _
      · have hc2 : t ∉ tagsOf s.fenceSignaled.completed := tagsOf_nil_not_mem t
        have hmem : t ∈ tagsOf s.readyToClear ∨ t ∈ tagsOf s.completed →
            t ∈ tagsOf s.fenceSignaled.readyToClear := by
          intro hx
          show t ∈ tagsOf (s.readyToClear ++ s.completed)
          rw [tagsOf_append]
          exact List.mem_append.mpr hx
        have hnmem : t ∉ tagsOf s.readyToClear → t ∉ tagsOf s.completed →
            t ∉ tagsOf s.fenceSignaled.readyToClear := by
          intro hr hc hx
          have : t ∈ tagsOf (s.readyToClear ++ s.completed) := hx
          rw [tagsOf_append] at this
          rcases List.mem_append.mp this with hx2 | hx2
          · exact hr hx2
          · exact hc hx2
        by_cases hc : t ∈ tagsOf s.completed
        · rw [stageOf_eq_completed s t hp hc,
            stageOf_eq_readyToClear s.fenceSignaled t hp hc2 (hmem (Or.inr hc))]
          exact Nat.le_succ 1
        · by_cases hr : t ∈ tagsOf s.readyToClear
          · rw [stageOf_eq_readyToClear s t hp hc hr,
              stageOf_eq_readyToClear s.fenceSignaled t hp hc2 (hmem (Or.inl hr))]
          · rw [stageOf_eq_removed s t hp hc hr,
              stageOf_eq_removed s.fenceSignaled t hp hc2 (hnmem hr hc)]
  | clearReady =>
      show (s.stageOf t).rank ≤ (s.clearReady.2.stageOf t).rank
      by_cases hp : t ∈ tagsOf s.pending
      · rw [stageOf_eq_pending s t hp]
        exact Nat.zero_le _
      · have hr2 : t ∉ tagsOf s.clearReady.2.readyToClear := tagsOf_nil_not_mem t
        by_cases hc : t ∈ tagsOf s.completed
        · rw [stageOf_eq_completed s t hp hc,
            stageOf_eq_completed s.clearReady.2 t hp hc]
        · by_cases hr : t ∈ tagsOf s.readyToClear
          · rw [stageOf_eq_readyToClear s t hp hc hr,
              stageOf_eq_removed s.clearReady.2 t hp hc hr2]
            exact Nat.le_succ 2
          · rw [stageOf_eq_removed s t hp hc hr,
              stageOf_eq_removed s.clearReady.2 t hp hc hr2]

/-- C2: in every reachable CopyAndReleaseBuffer state, each entry occupies at most one
of the three lists pending, completed, readyToClear; and across any single lifecycle
operation the stage of an existing entry only advances through pending, completed,
readyToClear, removed, never moving back to an earlier stage. -/
theorem CopyAndReleaseBuffer_stage_forward (s : CopyAndReleaseBuffer)
    (h : CRBReachable s) :
    (∀ t ∈ tagsOf s.pending, t ∉ tagsOf s.completed ∧ t ∉ tagsOf s.readyToClear) ∧
    (∀ t ∈ tagsOf s.completed, t ∉ tagsOf s.readyToClear) ∧
    (∀ op : CRBOp, ∀ t : Nat, t < s.nextTag →
      (s.stageOf t).rank ≤ ((op.apply s).stageOf t).rank) := by
  obtain ⟨hlt, hP, hC, hR, hPC, hPR, hCR⟩ := tagInv_reachable s h
  exact ⟨fun t ht => ⟨hPC t ht, hPR t ht⟩, hCR,
    fun op t ht => stageOf_rank_mono s op t ht⟩

/-- Concrete run of C2: the entry enqueued by add into a fresh buffer never moves
backward when a record call happens. -/
theorem CopyAndReleaseBuffer_stage_forward_witness :
    ((((CRBOp.add 1 2).apply (CopyAndReleaseBuffer.create none)).stageOf 0).rank ≤
      ((CRBOp.record.apply
          ((CRBOp.add 1 2).apply (CopyAndReleaseBuffer.create none))).stageOf 0).rank) :=
  (CopyAndReleaseBuffer_stage_forward
      ((CRBOp.add 1 2).apply (CopyAndReleaseBuffer.create none))
      (CRBReachable.step _ (CRBOp.add 1 2)
        (CRBReachable.init none))).2.2 CRBOp.record 0 (by decide)

theorem recordLoop_eq_map (l : List CopyData) :
    recordLoop l = l.map CopyData.record := by
  induction l with
  | nil => rfl
  | cons c cs ih => simp [recordLoop, ih]

/-- C5: a record call emits exactly one device copy command per entry pending at call
time, in order, moves exactly those entries to completed, touches no other list, and a
second record call made before the fence signals emits no command at all for the
already completed entries. -/
theorem CopyAndReleaseBuffer_record_exactly_once (s : CopyAndReleaseBuffer) :
    s.record.1 = s.pending.map CopyData.record ∧
    s.record.2.pending = [] ∧
    s.record.2.completed = s.completed ++ s.pending ∧
    s.record.2.readyToClear = s.readyToClear ∧
    s.record.2.record.1 = [] :=
  ⟨recordLoop_eq_map s.pending, rfl, rfl, rfl, rfl⟩

/-- C10: the constructor leaves stagingMemoryBufferPools null by default; add enqueues
into pending without consulting the pools; copy fails distinctly when the pools are
absent, and once stagingMemoryBufferPools is assigned the allocation path is defined
and enqueues the staged entry into pending. -/
theorem CopyAndReleaseBuffer_copy_requires_pools (s : CopyAndReleaseBuffer)
    (src dest data p : Nat) :
    CopyAndReleaseBuffer.createDefault.stagingMemoryBufferPools = none ∧
    (s.add src dest).pending = s.pending ++ [⟨s.nextTag, src, dest⟩] ∧
    (s.stagingMemoryBufferPools = none → s.copy data dest = none) ∧
    (s.stagingMemoryBufferPools = some p →
      s.copy data dest =
        some { s with
                pending := s.pending ++ [⟨s.nextTag, data, dest⟩],
                nextTag := s.nextTag + 1 }) := by
  refine ⟨rfl, rfl, ?_, ?_⟩
  · intro hnone
    simp [CopyAndReleaseBuffer.copy, hnone]
  · intro hsome
    simp [CopyAndReleaseBuffer.copy, hsome]

/-- Concrete run of C10: copy on a default-constructed buffer, with no staging pools
assigned, fails. -/
theorem CopyAndReleaseBuffer_copy_requires_pools_witness :
    CopyAndReleaseBuffer.createDefault.copy 5 2 = none :=
  (CopyAndReleaseBuffer_copy_requires_pools CopyAndReleaseBuffer.createDefault
      1 2 5 0).2.2.1 rfl

/-- FrameStamp, modelled from the spec data model (FrameStamp.h is not in src/):
monotonically increasing frame index plus simulation time; the real time point is not
modelled (wall clock). -/
structure FrameStamp where
  frameIndex : Nat
  simulationTime : Int
deriving DecidableEq

/-- Viewer state: _close flag, the per-viewer shared ActivityStatus flag (true once
set), the open windows (their count), _firstFrame, whether _start_point has been
recorded, the current _frameStamp, the Events collection and the registered event
handlers, with events and handlers modelled by identifiers. -/
structure ViewerState where
  closeFlag : Bool
  statusCancelled : Bool
  windowsOpen : Nat
  firstFrame : Bool
  startPointSet : Bool
  frameStamp : Option FrameStamp
  events : List Nat
  eventHandlers : List Nat
deriving DecidableEq

/-- Viewer construction: not closed, ActivityStatus unset, _firstFrame true, no
FrameStamp yet; the window count is a parameter so claims can quantify over viewers
with and without windows. -/
def ViewerState.create (windows : Nat) : ViewerState :=
  ⟨false, false, windows, true, false, none, [], []⟩

/-- Modelled from the spec: Viewer::active is declared in Viewer.h but its body lives
in Viewer.cpp, which is not in src/; the spec says active reports false once either
the close flag is set or no windows remain open. -/
def ViewerState.active (v : ViewerState) : Bool :=
  !v.closeFlag && decide (0 < v.windowsOpen)

/-- Modelled from the spec: Viewer::close is declared in Viewer.h but its body lives
in Viewer.cpp, which is not in src/; close sets the shared ActivityStatus and marks
the internal close flag. -/
def ViewerState.close (v : ViewerState) : ViewerState :=
  { v with closeFlag := true, statusCancelled := true }

/-- Modelled from the spec: Viewer::pollEvents is declared in Viewer.h but its body
lives in Viewer.cpp, which is not in src/; it drains the supplied platform events into
the Events collection, clearing it first when discardPreviousEvents holds, and returns
whether new events arrived. -/
def ViewerState.pollEvents (v : ViewerState) (incoming : List Nat)
    (discardPreviousEvents : Bool) : ViewerState × Bool :=
  ({ v with events := (if discardPreviousEvents then [] else v.events) ++ incoming },
   !incoming.isEmpty)

/-- Index the next FrameStamp will carry: previous frameIndex plus one, or zero when
no frame has been produced yet. -/
def nextFrameIndex (v : ViewerState) : Nat :=
  match v.frameStamp with
  | none => 0
  | some fs => fs.frameIndex + 1

/-- Modelled from the spec: Viewer::advanceToNextFrame is declared in Viewer.h but its
body lives in Viewer.cpp, which is not in src/; when active is false it returns false
with no side effects; otherwise it records the start point on the very first call,
polls events discarding the previous collection, and installs a new FrameStamp whose
frameIndex is the previous index plus one, or zero initially, returning true. -/
def ViewerState.advanceToNextFrame (v : ViewerState) (incoming : List Nat)
    (simulationTime : Int) : ViewerState × Bool :=
  if v.active then
    let v1 := { v with firstFrame := false,
                       startPointSet := v.startPointSet || v.firstFrame }
    let v2 := (v1.pollEvents incoming true).1
    ({ v2 with frameStamp := some ⟨nextFrameIndex v, simulationTime⟩ }, true)
  else (v, false)

/-- Viewer::addEventHandler, inline in Viewer.h: emplace_back on the handler list. -/
def ViewerState.addEventHandler (v : ViewerState) (handler : Nat) : ViewerState :=
  { v with eventHandlers := v.eventHandlers ++ [handler] }

/-- Modelled from the spec: addWindow adds a window to the collection (body in
Viewer.cpp, not in src/), modelled as raising the open window count. -/
def ViewerState.addWindow (v : ViewerState) : ViewerState :=
  { v with windowsOpen := v.windowsOpen + 1 }

/-- Modelled from the spec: removeWindow removes a window (body in Viewer.cpp, not in
src/), modelled as lowering the open window count. -/
def ViewerState.removeWindow (v : ViewerState) : ViewerState :=
  { v with windowsOpen := v.windowsOpen - 1 }

/-- The Viewer operations used by the trace claims. -/
inductive ViewerOp where
  | close
  | pollEvents (incoming : List Nat) (discardPreviousEvents : Bool)
  | advanceToNextFrame (incoming : List Nat) (simulationTime : Int)
  | addEventHandler (handler : Nat)
  | addWindow
  | removeWindow
deriving DecidableEq

/-- Effect of one Viewer operation on the state. -/
def ViewerOp.apply : ViewerOp → ViewerState → ViewerState
  | .close, v => v.close
  | .pollEvents inc disc, v => (v.pollEvents inc disc).1
  | .advanceToNextFrame inc st, v => (v.advanceToNextFrame inc st).1
  | .addEventHandler h, v => v.addEventHandler h
  | .addWindow, v => v.addWindow
  | .removeWindow, v => v.removeWindow

/-- Run a sequence of Viewer operations. -/
def applyOps : ViewerState → List ViewerOp → ViewerState
  | v, [] => v
  | v, op :: ops => applyOps (op.apply v) ops

theorem closeFlag_mono (v : ViewerState) (op : ViewerOp) (h : v.closeFlag = true) :
    (op.apply v).closeFlag = true := by
  cases op with
  | close => rfl
  | pollEvents inc disc => exact h
  | advanceToNextFrame inc st =>
      show ((v.advanceToNextFrame inc st).1).closeFlag = true
      have hact : v.active = false := by simp [ViewerState.active, h]
      simp [ViewerState.advanceToNextFrame, hact, h]
  | addEventHandler hd => exact h
  | addWindow => exact h
  | removeWindow => exact h

theorem statusCancelled_mono (v : ViewerState) (op : ViewerOp)
    (h : v.statusCancelled = true) : (op.apply v).statusCancelled = true := by
  cases op with
  | close => rfl
  | pollEvents inc disc => exact h
  | advanceToNextFrame inc st =>
      show ((v.advanceToNextFrame inc st).1).statusCancelled = true
      by_cases hact : v.active
      · simp [ViewerState.advanceToNextFrame, hact, ViewerState.pollEvents, h]
      · simp [ViewerState.advanceToNextFrame, hact, h]
  | addEventHandler hd => exact h
  | addWindow => exact h
  | removeWindow => exact h

theorem closeFlag_applyOps (v : ViewerState) (ops : List ViewerOp)
    (h : v.closeFlag = true) : (applyOps v ops).closeFlag = true := by
  induction ops generalizing v with
  | nil => exact h
  | cons op ops ih => exact ih _ (closeFlag_mono v op h)

theorem statusCancelled_applyOps (v : ViewerState) (ops : List ViewerOp)
    (h : v.statusCancelled = true) : (applyOps v ops).statusCancelled = true := by
  induction ops generalizing v with
  | nil => exact h
  | cons op ops ih => exact ih _ (statusCancelled_mono v op h)

/-- C3: after close, and after any further operations on the viewer, the close flag is
still set, active reports false, and advanceToNextFrame returns false with the state
unchanged: no new FrameStamp is produced, the current one is not replaced, and no
events are polled. -/
theorem Viewer_advance_after_close (v : ViewerState) (ops : List ViewerOp)
    (incoming : List Nat) (simulationTime : Int) :
    (applyOps v.close ops).closeFlag = true ∧
    (applyOps v.close ops).active = false ∧
    (applyOps v.close ops).advanceToNextFrame incoming simulationTime =
      (applyOps v.close ops, false) := by
  have hclose : (applyOps v.close ops).closeFlag = true :=
    closeFlag_applyOps v.close ops rfl
  have hact : (applyOps v.close ops).active = false := by
    simp [ViewerState.active, hclose]
  refine ⟨hclose, hact, ?_⟩
  simp [ViewerState.advanceToNextFrame, hact]

/-- Concrete run of C3: a closed single-window viewer refuses to advance. -/
theorem Viewer_advance_after_close_witness :
    ((ViewerState.create 1).close.advanceToNextFrame [4] 0 =
      ((ViewerState.create 1).close, false)) :=
  (Viewer_advance_after_close (ViewerState.create 1) [] [4] 0).2.2

/-- C7: the per-viewer ActivityStatus flag starts unset at construction, close sets
it, no operation other than close ever writes it, every operation preserves it once
set, and in every state reached after close the flag remains set and the viewer is
never active again. -/
theorem Viewer_status_set_once (windows : Nat) (v : ViewerState)
    (ops : List ViewerOp) (op : ViewerOp) :
    (ViewerState.create windows).statusCancelled = false ∧
    (v.close).statusCancelled = true ∧
    (v.statusCancelled = true → (op.apply v).statusCancelled = true) ∧
    (op ≠ ViewerOp.close → (op.apply v).statusCancelled = v.statusCancelled) ∧
    (applyOps v.close ops).statusCancelled = true ∧
    (applyOps v.close ops).active = false := by
  refine ⟨rfl, rfl, statusCancelled_mono v op, ?_, ?_, ?_⟩
  · intro hop
    cases op with
    | close => exact absurd rfl hop
    | pollEvents inc disc => rfl
    | advanceToNextFrame inc st =>
        show ((v.advanceToNextFrame inc st).1).statusCancelled = v.statusCancelled
        by_cases hact : v.active
        · simp [ViewerState.advanceToNextFrame, hact, ViewerState.pollEvents]
        · simp [ViewerState.advanceToNextFrame, hact]
    | addEventHandler hd => rfl
    | addWindow => rfl
    | removeWindow => rfl
  · exact statusCancelled_applyOps v.close ops rfl
  · simp [ViewerState.active, closeFlag_applyOps v.close ops rfl]

/-- Concrete run of C7: after close and a window addition the flag is still set. -/
theorem Viewer_status_set_once_witness :
    (applyOps (ViewerState.create 1).close [ViewerOp.addWindow]).statusCancelled =
      true :=
  (Viewer_status_set_once 1 (ViewerState.create 1) [ViewerOp.addWindow]
      ViewerOp.addWindow).2.2.2.2.1

/-- Frame indices of the FrameStamps produced by one operation: a successful
advanceToNextFrame yields the index of the FrameStamp it installs, every other
operation (and a failed advance) yields none. -/
def producedStamps (v : ViewerState) : ViewerOp → List Nat
  | .advanceToNextFrame inc st =>
      if (v.advanceToNextFrame inc st).2 then
        match (v.advanceToNextFrame inc st).1.frameStamp with
        | some fs => [fs.frameIndex]
        | none => []
      else []
  | _ => []

/-- Run a sequence of Viewer operations, collecting the frame indices of every
FrameStamp produced by the successful advanceToNextFrame calls, in order. -/
def runOps : ViewerState → List ViewerOp → ViewerState × List Nat
  | v, [] => (v, [])
  | v, op :: ops =>
      ((runOps (op.apply v) ops).1,
       producedStamps v op ++ (runOps (op.apply v) ops).2)

/-- From any viewer state, the collected frame indices form the consecutive run
starting at the index the next FrameStamp would carry. -/
theorem runOps_collects_range (ops : List ViewerOp) (v : ViewerState) :
    ∃ m, (runOps v ops).2 = List.range' (nextFrameIndex v) m := by
  induction ops generalizing v with
  | nil => exact ⟨0, rfl⟩
  | cons op ops ih =>
      cases op with
      | close => exact ih (ViewerOp.close.apply v)
      | pollEvents inc disc => exact ih ((ViewerOp.pollEvents inc disc).apply v)
      | addEventHandler hd => exact ih ((ViewerOp.addEventHandler hd).apply v)
      | addWindow => exact ih (ViewerOp.addWindow.apply v)
      | removeWindow => exact ih (ViewerOp.removeWindow.apply v)
      | advanceToNextFrame inc st =>
          by_cases hact : v.active = true
          · obtain ⟨m, hm⟩ := ih ((ViewerOp.advanceToNextFrame inc st).apply v)
            refine ⟨m + 1, ?_⟩
            have hfs : ((ViewerOp.advanceToNextFrame inc st).apply v).frameStamp =
                some ⟨nextFrameIndex v, st⟩ := by
              show ((v.advanceToNextFrame inc st).1).frameStamp = _
              simp [ViewerState.advanceToNextFrame, hact, ViewerState.pollEvents]
            have hnext : nextFrameIndex ((ViewerOp.advanceToNextFrame inc st).apply v) =
                nextFrameIndex v + 1 := by
              simp [nextFrameIndex, hfs]
            have hprod : producedStamps v (ViewerOp.advanceToNextFrame inc st) =
                [nextFrameIndex v] := by
              simp [producedStamps, ViewerState.advanceToNextFrame, hact,
                ViewerState.pollEvents]
            show producedStamps v (ViewerOp.advanceToNextFrame inc st) ++
                (runOps ((ViewerOp.advanceToNextFrame inc st).apply v) ops).2 =
              List.range' (nextFrameIndex v) (m + 1)
            rw [hprod, hm, hnext]
            rfl
          · have hact2 : v.active = false := by
              simpa using hact
            have happ : (ViewerOp.advanceToNextFrame inc st).apply v = v := by
              show (v.advanceToNextFrame inc st).1 = v
              simp [ViewerState.advanceToNextFrame, hact2]
            obtain ⟨m, hm⟩ := ih ((ViewerOp.advanceToNextFrame inc st).apply v)
            refine ⟨m, ?_⟩
            have hprod : producedStamps v (ViewerOp.advanceToNextFrame inc st) = [] := by
              simp [producedStamps, ViewerState.advanceToNextFrame, hact2]
            show producedStamps v (ViewerOp.advanceToNextFrame inc st) ++
                (runOps ((ViewerOp.advanceToNextFrame inc st).apply v) ops).2 =
              List.range' (nextFrameIndex v) m
            rw [hprod, List.nil_append, hm, happ]

/-- C4: starting from a fresh Viewer, over any operation sequence the frame indices of
the FrameStamps produced by the successful advanceToNextFrame calls are exactly
0, 1, 2, ...: the first success yields frameIndex 0 and every subsequent success
yields exactly the previous index plus one. -/
theorem Viewer_frameIndex_increments (windows : Nat) (ops : List ViewerOp) :
    (runOps (ViewerState.create windows) ops).2 =
      List.range (runOps (ViewerState.create windows) ops).2.length := by
  obtain ⟨m, hm⟩ := runOps_collects_range ops (ViewerState.create windows)
  have h0 : nextFrameIndex (ViewerState.create windows) = 0 := rfl
  rw [hm, h0, List.length_range', List.range_eq_range']

/-- Concrete run of C4: two successful advances on a one-window viewer produce the
frame indices 0 and 1. -/
theorem Viewer_frameIndex_increments_witness :
    (runOps (ViewerState.create 1)
        [ViewerOp.advanceToNextFrame [] 0, ViewerOp.advanceToNextFrame [] 0]).2 =
      List.range (runOps (ViewerState.create 1)
        [ViewerOp.advanceToNextFrame [] 0, ViewerOp.advanceToNextFrame [] 0]).2.length :=
  Viewer_frameIndex_increments 1
    [ViewerOp.advanceToNextFrame [] 0, ViewerOp.advanceToNextFrame [] 0]

/-- Modelled from the spec: the delivery loop of Viewer::handleEvents, whose body
lives in Viewer.cpp, not in src/; the Events collection is handed to each registered
handler, visiting handlers in insertion order, once each; the result lists the
deliveries in the order they happen. -/
def deliverLoop (events : List Nat) : List Nat → List (Nat × List Nat)
  | [] => []
  | h :: hs => (h, events) :: deliverLoop events hs

/-- Viewer::handleEvents (modelled from the spec, see deliverLoop): deliver the
current Events collection to the registered event handlers. -/
def ViewerState.handleEvents (v : ViewerState) : List (Nat × List Nat) :=
  deliverLoop v.events v.eventHandlers

theorem deliverLoop_handlers (events : List Nat) (hs : List Nat) :
    (deliverLoop events hs).map Prod.fst = hs ∧
    ∀ d ∈ deliverLoop events hs, d.2 = events := by
  induction hs with
  | nil => exact ⟨rfl, by intro d hd; simp [deliverLoop] at hd⟩
  | cons h hs ih =>
      refine ⟨?_, ?_⟩
      · simp only [deliverLoop, List.map_cons, ih.1]
      · intro d hd
        simp only [deliverLoop, List.mem_cons] at hd
        rcases hd with hd | hd
        · rw [hd]
        · exact ih.2 d hd

/-- C8: handleEvents produces exactly one delivery per registered handler, the
receiving handlers read off in insertion order, each delivery carrying the current
Events collection; a handler registered once receives exactly one delivery, the
count of deliveries matching its registration count, and registration appends at the
tail; the whole delivery order is a deterministic function of the state. -/
theorem Viewer_handleEvents_in_order (v : ViewerState) (handler : Nat) :
    (v.handleEvents).map Prod.fst = v.eventHandlers ∧
    (∀ d ∈ v.handleEvents, d.2 = v.events) ∧
    ((v.handleEvents).map Prod.fst).count handler = v.eventHandlers.count handler ∧
    (v.addEventHandler handler).eventHandlers = v.eventHandlers ++ [handler] := by
  obtain ⟨h1, h2⟩ := deliverLoop_handlers v.events v.eventHandlers
  refine ⟨h1, h2, ?_, rfl⟩
  show ((deliverLoop v.events v.eventHandlers).map Prod.fst).count handler =
    v.eventHandlers.count handler
  rw [h1]

/-- Concrete run of C8: with two handlers registered, the deliveries visit them in
registration order. -/
theorem Viewer_handleEvents_in_order_witness :
    ((((ViewerState.create 1).addEventHandler 10).addEventHandler 11).handleEvents).map
        Prod.fst =
      (((ViewerState.create 1).addEventHandler 10).addEventHandler 11).eventHandlers :=
  (Viewer_handleEvents_in_order
      (((ViewerState.create 1).addEventHandler 10).addEventHandler 11) 10).1

/-- Host-visible status of a device fence. -/
inductive FenceStatus where
  | signaled
  | unsignaled
deriving DecidableEq

/-- The VkResult values this core distinguishes: the tri-state device status of a
fence wait, plus the defined status returned when no prior frame has been submitted. -/
inductive VkResult where
  | success
  | timeout
  | deviceError
  | noPriorFrame
deriving DecidableEq

/-- RecordAndSubmitTask fence retention, modelled from the spec: one retained fence
status per prior submitted frame, most recent first, so index 0 stands for the
previous frame. -/
structure RecordAndSubmitTask where
  retainedFences : List FenceStatus
deriving DecidableEq

/-- Modelled from the spec: Viewer::waitForFences is declared in Viewer.h but its body
lives in Viewer.cpp, which is not in src/; it waits on the fence of
relativeFrameIndex frames ago for each RecordAndSubmitTask and returns a device
status. When no task retains fence state for that frame, nothing has been submitted
and the call returns the defined noPriorFrame status, a total result rather than an
indefinite block; otherwise it returns success when every such fence is signaled and
timeout when an unsignaled fence outlasts the timeout. -/
def waitForFences (tasks : List RecordAndSubmitTask) (relativeFrameIndex : Nat)
    (timeoutNanos : Nat) : VkResult :=
  if (tasks.filterMap fun t =>
      t.retainedFences.get? (relativeFrameIndex - 1)).isEmpty then
    VkResult.noPriorFrame
  else if (tasks.filterMap fun t =>
      t.retainedFences.get? (relativeFrameIndex - 1)).all
        fun f => decide (f = FenceStatus.signaled) then
    VkResult.success
  else VkResult.timeout

/-- C6: waitForFences with relativeFrameIndex 1 called before any frame has been
submitted, so that no RecordAndSubmitTask retains fence state, returns the defined
noPriorFrame status for every timeout value: a well-defined result, not a block and
not undefined behavior. -/
theorem Viewer_waitForFences_no_prior_frame (tasks : List RecordAndSubmitTask)
    (timeoutNanos : Nat) (h : ∀ t ∈ tasks, t.retainedFences = []) :
    waitForFences tasks 1 timeoutNanos = VkResult.noPriorFrame := by
  have hf : ∀ l : List RecordAndSubmitTask, (∀ t ∈ l, t.retainedFences = []) →
      l.filterMap (fun t => t.retainedFences.get? 0) = [] := by
    intro l
    induction l with
    | nil => intro _; rfl
    | cons t ts ih =>
        intro hl
        have ht : t.retainedFences = [] := hl t (List.mem_cons_self t ts)
        have hts : ∀ x ∈ ts, x.retainedFences = [] := fun x hx =>
          hl x (List.mem_cons_of_mem t hx)
        simp [List.filterMap_cons, ht, ih hts]
        exact hts
  unfold waitForFences
  rw [show (1 : Nat) - 1 = 0 from rfl, hf tasks h]
  rfl

/-- Concrete run of C6: one task with no submitted frame yields noPriorFrame. -/
theorem Viewer_waitForFences_no_prior_frame_witness :
    waitForFences [⟨[]⟩] 1 1000000 = VkResult.noPriorFrame :=
  Viewer_waitForFences_no_prior_frame [⟨[]⟩] 1000000 (by decide)

end VSG
